import Mathlib

/-!
# Verification of the LLAMBO generative surrogate model

Shallow embedding of the core of the `llambo` generative surrogate sampler:

* `llambo/generative_sm.py` — `LLMGenerativeSM` (`process_response`, `_predict`,
  `_generate_concurrently`, `_async_generate`, `_warp_candidate_points`,
  `_unwarp_candidate_points`, `select_query_point`);
* `raw_package/llambo/generative_sm_utils.py` — `_count_decimal_places`,
  `prepare_configurations` (label assignment and row serialization);
* `sampler_base.py` — `Sampler.sample_relative`, `generate_random_samples`,
  `_initialize_llambo`.

Python floats are idealized as `ℚ` where the code only moves decimal literals
around (parsing, means, percentiles, formatting), and as `ℝ` where the code
applies transcendental functions (`np.log10`, `10 ** x`).  `NaN` is modelled
by `Option`: `none` is `NaN`.  Fallible Python code (exceptions) is modelled
with `Except PyErr`.
-/

/-- Kinds of Python exceptions that the modelled code paths can raise. -/
inductive PyErr where
  /-- `ValueError` (raised by `float(...)`, `np.argmax([])`, ragged `np.array`). -/
  | valueError
  /-- `ZeroDivisionError` (raised by `sum(l)/len(l)` on an empty list). -/
  | zeroDivisionError
  /-- `KeyError` (raised by a failed dict lookup). -/
  | keyError
  /-- `AttributeError` (raised by touching an attribute that was never set). -/
  | attributeError
  /-- `IndexError` (raised by an out-of-range sequence index). -/
  | indexError
  deriving DecidableEq, Repr

/-- Decidable equality of `Except` results, used to evaluate the embedded
functions on concrete inputs. -/
instance {ε α : Type} [DecidableEq ε] [DecidableEq α] :
    DecidableEq (Except ε α) := fun a b =>
  match a, b with
  | .error e, .error f =>
    match decEq e f with
    | isTrue h => isTrue (h ▸ rfl)
    | isFalse h => isFalse fun c => h (by injection c)
  | .error _, .ok _ => isFalse fun c => Except.noConfusion c
  | .ok _, .error _ => isFalse fun c => Except.noConfusion c
  | .ok x, .ok y =>
    match decEq x y with
    | isTrue h => isTrue (h ▸ rfl)
    | isFalse h => isFalse fun c => h (by injection c)

/-- A Python float value: a finite number (idealized as an exact rational) or
`NaN` (`none`).  All numeric tokens that reach these values in the modelled
code are decimal literals, so `ℚ` represents them exactly. -/
abbrev PyVal := Option ℚ

/-- `NaN` test for a `PyVal`. -/
def PyVal.isNaN (v : PyVal) : Bool := v.isNone

/-- Numpy scalar comparison `a > b`: any comparison with `NaN` is `False`. -/
def npGT (a b : PyVal) : Bool :=
  match a, b with
  | some x, some y => decide (y < x)
  | _, _ => false

/-! ## `process_response` (generative_sm.py lines 178–207)

`re.findall(r"## (-?[\d.]+) ##", raw_response)` followed by `float(...)`.
The regex is embedded as a left-to-right scan over the character list: at each
position the engine tries to match the literal `## `, an optional minus sign,
a non-empty greedy run of characters from the class of digits and `.`, and the
literal ` ##`.  Because the character class contains neither a space nor `#`,
greedy backtracking can never turn a failed attempt into a successful one, so
the scan below is equivalent to the Python regex engine's behaviour. -/

/-- Character class `[\d.]` of the extraction pattern. -/
def isDigitOrDot (c : Char) : Bool := c.isDigit || c = '.'

/-- Try to match `## (-?[\d.]+) ##` at the head of `cs`.  On success, return
the captured group and the remainder of the input after the whole match
(`re.findall` continues scanning from the end of a match). -/
def matchDelimAt (cs : List Char) : Option (List Char × List Char) :=
  match cs with
  | '#' :: '#' :: ' ' :: rest =>
    let (sign, rest') :=
      match rest with
      | '-' :: r => ([ '-' ], r)
      | _ => (([] : List Char), rest)
    let run := rest'.takeWhile isDigitOrDot
    let tail := rest'.dropWhile isDigitOrDot
    if run.isEmpty then none
    else
      match tail with
      | ' ' :: '#' :: '#' :: rem => some (sign ++ run, rem)
      | _ => none
  | _ => none

/-- Scanner for `re.findall`: walk the input left to right, emitting each
non-overlapping match.  `fuel` only serves the termination checker; a
successful match consumes at least seven characters and a failed attempt
advances by one, so `fuel = length of the input` never runs out. -/
def findAllAux : ℕ → List Char → List (List Char)
  | 0, _ => []
  | _ + 1, [] => []
  | fuel + 1, c :: rest =>
    match matchDelimAt (c :: rest) with
    | some (grp, rem) => grp :: findAllAux fuel rem
    | none => findAllAux fuel rest

/-- `re.findall(r"## (-?[\d.]+) ##", s)`. -/
def reFindAllPred (s : String) : List String :=
  (findAllAux s.toList.length s.toList).map fun cs => String.mk cs

/-- Numeric value of a digit string (most significant digit first). -/
def digitsVal (ds : List Char) : ℕ :=
  ds.foldl (fun a c => 10 * a + (c.toNat - 48)) 0

/-- Python `float(s)` restricted to strings over the alphabet `-`, `.`,
`0`–`9` (every string handed to it by `process_response` is a match of
`-?[\d.]+`).  It succeeds exactly when the string is an optional minus sign
followed by digits with at most one decimal point and at least one digit;
otherwise (`"."`, `"1.2.3"`, …) Python raises `ValueError`, modelled by
`none`. -/
def pyFloatOfChars (cs : List Char) : Option ℚ :=
  let (neg, body) :=
    match cs with
    | '-' :: r => (true, r)
    | _ => (false, cs)
  if body.all isDigitOrDot = false then none
  else
    match body.splitOn '.' with
    | [ip] =>
      if ip.isEmpty then none
      else some ((if neg then -1 else 1) * (digitsVal ip : ℚ))
    | [ip, fp] =>
      if ip.isEmpty && fp.isEmpty then none
      else
        some ((if neg then -1 else 1) *
          ((digitsVal ip : ℚ) + (digitsVal fp : ℚ) / (10 : ℚ) ^ fp.length))
    | _ => none

/-- Python `float(s)`. -/
def pyFloat (s : String) : Option ℚ := pyFloatOfChars s.toList

/-- One iteration of the `process_response` loop.  `raw = none` models a
non-string element (`isinstance(raw_response, str)` fails → `NaN`); a string
with exactly one match is passed to `float`, which may raise `ValueError`;
zero or several matches yield `NaN`. -/
def procOne (raw : Option String) : Except PyErr PyVal :=
  match raw with
  | none => .ok none
  | some s =>
    let genPred := reFindAllPred s
    if genPred.length = 1 then
      match pyFloat (genPred.headD "") with
      | some q => .ok (some q)
      | none => .error .valueError
    else .ok none

/-- `LLMGenerativeSM.process_response` (lines 178–207): extract one
probability per raw response.  An uncaught `ValueError` from `float` aborts
the whole call, which `mapM` over `Except` reproduces (partial results are
discarded). -/
def process_response (rs : List (Option String)) : Except PyErr (List PyVal) :=
  rs.mapM procOne

/-- Total version of `procOne` used for reasoning: the value it returns when
it does not raise. -/
def procOneVal (raw : Option String) : PyVal :=
  match raw with
  | none => none
  | some s =>
    let genPred := reFindAllPred s
    if genPred.length = 1 then pyFloat (genPred.headD "") else none

/-- Whether `procOne` raises (`float` fails on the unique match). -/
def procOneFails (raw : Option String) : Bool :=
  match raw with
  | none => false
  | some s =>
    let genPred := reFindAllPred s
    genPred.length = 1 && (pyFloat (genPred.headD "")).isNone

/-! ## NaN-aware aggregation and `np.argmax` -/

/-- `np.nanmean` of one row: the mean of the non-`NaN` entries, `NaN` if
there is none. -/
def nanmean (row : List PyVal) : PyVal :=
  let vs := row.filterMap id
  if vs.length = 0 then none else some (vs.sum / (vs.length : ℚ))

/-- Scan loop of numpy's `argmax` kernel: keep the running maximum `cur` and
its index `best`; an element compares greater when `*ip > mp` or `*ip` is
`NaN`, and the scan stops at the first `NaN` (numpy then reports its index).
`i` is the index of the head of the remaining list. -/
def npArgmaxGo : List PyVal → PyVal → ℕ → ℕ → ℕ
  | [], _, best, _ => best
  | w :: ws, cur, best, i =>
    if w.isNaN then i
    else if npGT w cur then npArgmaxGo ws w i (i + 1)
    else npArgmaxGo ws cur best (i + 1)

/-- `np.argmax` over a float vector: `ValueError` on an empty vector; the
index of the first `NaN` if any entry is `NaN` (numpy's maximum propagates
`NaN`); otherwise the index of the first occurrence of the maximum. -/
def npArgmax : List PyVal → Except PyErr ℕ
  | [] => .error .valueError
  | v :: rest => .ok (if v.isNaN then 0 else npArgmaxGo rest v 0 1)

/-! ## `_async_generate` (generative_sm.py lines 94–136)

The method builds the prompt, builds the two-message chat payload and calls
`self.OpenAI_instance.ask(message)` directly.  To settle the temporal claim
about rate limiting, the embedding also records the trace of side-effecting
steps the method performs: `queryLLM` for the outbound `ask` call and
`acquireRateLimiter` for a call to `self.rate_limiter` (the method body
contains no such call, so no trace ever contains it). -/

/-- Side-effecting steps of the surrogate's query path. -/
inductive SMEvent where
  /-- An acquisition on the surrogate instance's rate limiter. -/
  | acquireRateLimiter
  /-- An outbound model query (`OpenAI_instance.ask`). -/
  | queryLLM
  deriving DecidableEq, Repr

/-- `LLMGenerativeSM._async_generate`.  `ask` abstracts the external
`OpenAI_interface.ask` black box: it returns the response payload (`none`
models a non-string payload) and the cost.  `tot_tokens` is the literal
placeholder `1000` from the source.  The second component is the event
trace of the call. -/
def asyncGenerate (ask : List (String × String) → Option String × ℚ)
    (fewShotTemplate : String) (queryQ : String) (queryIdx : ℕ) :
    (ℕ × Option String × ℚ × ℕ) × List SMEvent :=
  let prompt := fewShotTemplate.replace "{Q}" queryQ
  let message :=
    [("system", "You are an AI assistant that helps people find information."),
     ("user", prompt)]
  let r := ask message
  ((queryIdx, r.1, r.2, 1000), [SMEvent.queryLLM])

/-- Holds exactly when every `queryLLM` event in a trace is preceded by an
`acquireRateLimiter` event (the property the spec asserts of outbound
queries). -/
def acquiredBeforeQuery (tr : List SMEvent) : Prop :=
  ∀ i : Fin tr.length, tr.get i = SMEvent.queryLLM →
    ∃ j : Fin tr.length, j < i ∧ tr.get j = SMEvent.acquireRateLimiter

instance (tr : List SMEvent) : Decidable (acquiredBeforeQuery tr) := by
  unfold acquiredBeforeQuery; infer_instance

/-! ## `_generate_concurrently` (lines 138–176)

One task is created per (template, query) pair, in template-major order, and
`asyncio.gather` delivers one result per task.  A gathered entry is either the
task's `(query_idx, resp, cost, tokens)` tuple or `None` (the code guards for
`None` results at lines 169–174, and a `None` entry contributes to no
candidate).  The regrouping loop appends each non-`None` entry to
`results[query_idx]`. -/

/-- One element of the `asyncio.gather` result list. -/
abbrev GatherEntry := Option (ℕ × Option String × ℚ × ℕ)

/-- One `[resp, tot_cost, tot_tokens]` record stored in `results[query_idx]`. -/
abbrev RespItem := Option String × ℚ × ℕ

/-- One iteration of the regrouping loop (lines 169–174):
`results[query_idx].append([resp, tot_cost, tot_tokens])`, skipping `None`
entries.  (`List.set` on an out-of-range index is the identity; in the source
the index always comes from `enumerate(query_examples)` and is in range.) -/
def regroupStep (res : List (List RespItem)) (e : GatherEntry) :
    List (List RespItem) :=
  match e with
  | none => res
  | some (i, r, c, k) => res.set i (res.getD i [] ++ [(r, c, k)])

/-- `LLMGenerativeSM._generate_concurrently`, given the gathered task results:
start from `[[] for _ in range(len(query_examples))]` and regroup by
`query_idx`. -/
def generate_concurrently (nq : ℕ) (gathered : List GatherEntry) :
    List (List RespItem) :=
  gathered.foldl regroupStep (List.replicate nq [])

/-- The gathered list produced when every task for template `t` and query
`q` completes with `outcome t q` (in task-creation order: template-major,
query index within).  `outcome t q = none` models a task whose awaited result
is `None`; otherwise it yields the task's `(resp, cost, tokens)`. -/
def canonGather (ts : List String) (qs : List String)
    (outcome : String → String → Option (Option String × ℚ × ℕ)) :
    List GatherEntry :=
  ts.flatMap fun t => qs.enum.map fun p => (outcome t p.2).map fun r => (p.1, r)

/-! ## `_predict` (lines 209–282) -/

/-- The chunks `query_examples[i : i + 5]` of the chunking loop
(line 242: `for i in range(0, len(query_examples), 5)`): five queries per
chunk, with a shorter final chunk. -/
def chunks5 {α : Type} : List α → List (List α)
  | [] => []
  | a :: b :: c :: d :: e :: rest => [a, b, c, d, e] :: chunks5 rest
  | l => [l]

/-- The raw responses collected for one candidate (lines 255–266): each
stored record is a non-empty list whose head is the response; a non-string
response contributes `np.nan` (`none`). -/
def rowRaw (row : List RespItem) : List (Option String) :=
  row.map fun it => it.1

/-- `sum(x[1] for x in sample_response ...)` — the cost field. -/
def rowCost (row : List RespItem) : ℚ :=
  (row.map fun it => it.2.1).sum

/-- `sum(x[2] for x in sample_response ...)` — the token field. -/
def rowTokens (row : List RespItem) : ℕ :=
  (row.map fun it => it.2.2).sum

/-- Per-candidate prediction list (lines 251–268): a candidate with no
responses yields `[np.nan] * self.n_gens`; otherwise its raw responses go
through `process_response` (which may raise). -/
def samplePreds (nGens : ℕ) (row : List RespItem) : Except PyErr (List PyVal) :=
  if row.isEmpty then .ok (List.replicate nGens none)
  else process_response (rowRaw row)

/-- The chunking loop of `_predict`: for each chunk, regroup its gathered
results, record `bool_pred_returned` (`1 if x is not None else 0` — each `x`
is a per-candidate list and never `None`, so every recorded value is `1`),
and accumulate predictions, costs and tokens.  `gss` supplies the gathered
list of each chunk's `asyncio.gather` call. -/
def predictAux (nGens : ℕ) :
    List (List String) → List (List GatherEntry) →
    Except PyErr (List (List PyVal) × List ℕ × ℚ × ℕ)
  | [], _ => .ok ([], [], 0, 0)
  | ch :: chs, gss => do
    let chunkResults := generate_concurrently ch.length (gss.headD [])
    let bools := chunkResults.map fun _ => (1 : ℕ)
    let preds ← chunkResults.mapM (samplePreds nGens)
    let (restPreds, restBools, restCost, restTok) ← predictAux nGens chs gss.tail
    .ok (preds ++ restPreds, bools ++ restBools,
      (chunkResults.map rowCost).sum + restCost,
      (chunkResults.map rowTokens).sum + restTok)

/-- Rectangularity test of `np.array(all_preds)`: every row has the length of
the first row.  A ragged nested list makes `np.array(...).astype(float)`
raise `ValueError`. -/
def allSameLength {α : Type} (m : List (List α)) : Bool :=
  match m with
  | [] => true
  | r :: rs => rs.all fun x => x.length = r.length

/-- `LLMGenerativeSM._predict`, given per-chunk gathered results `gss`.
Returns `(mean_probs, success_rate, tot_cost, tot_tokens)`; the wall-clock
`time_taken` component is real time and is not modelled.  `success_rate` is
computed before the `np.array` conversion, exactly as in the source
(lines 277–282). -/
def predict (nGens : ℕ) (qs : List String) (gss : List (List GatherEntry)) :
    Except PyErr (List PyVal × ℚ × ℚ × ℕ) := do
  let (allPreds, boolPred, cost, tok) ← predictAux nGens (chunks5 qs) gss
  if boolPred.length = 0 then .error .zeroDivisionError
  else if allSameLength allPreds = false then .error .valueError
  else .ok (allPreds.map nanmean, (boolPred.sum : ℚ) / (boolPred.length : ℚ),
    cost, tok)

/-- The gathered lists of all chunks when every task completes with
`outcome` (no reordering). -/
def canonChunks (ts : List String) (qs : List String)
    (outcome : String → String → Option (Option String × ℚ × ℕ)) :
    List (List GatherEntry) :=
  (chunks5 qs).map fun ch => canonGather ts ch outcome

/-- The claim-side success rate: candidates with at least one raw response
over total candidates, computed directly from the per-chunk gathered results. -/
def specSuccessRate (qs : List String) (gss : List (List GatherEntry)) : ℚ :=
  let rows : List (List RespItem) :=
    ((chunks5 qs).enum).flatMap fun p =>
      generate_concurrently p.2.length (gss.getD p.1 [])
  ((rows.filter fun r => !r.isEmpty).length : ℚ) / (rows.length : ℚ)

/-! ## Warping and selection (generative_sm.py lines 344–476)

Configuration values are idealized as real numbers here because warping
applies `np.log10` and unwarping `10 ** x`.  A configuration is an ordered
row of `(hyperparameter, value)` fields.  The source iterates over the
constraint dict and rewrites `config[h]` for every log-scaled `h`; under the
data-model invariant that the row's fields and the constraint set name the
same hyperparameters (a missing field would be a `KeyError`, a fatal
configuration error per the spec), this equals the per-field map below. -/

/-- One `hyperparameter_constraints` entry `[dtype, dist_type, bounds]` as
built by `Sampler._initialize_llambo`.  `bounds` holds the numeric
`[low, high]` pair; categorical choice lists are never consulted by the
modelled claims and are represented by `[]`. -/
structure HPConstraint where
  dtype : String
  scale : String
  bounds : List ℚ
  deriving DecidableEq, Repr

/-- A configuration row with real-valued fields. -/
abbrev RConfig := List (String × ℝ)

/-- Dict lookup in the constraint set. -/
def lookupConstraint (cs : List (String × HPConstraint)) (n : String) :
    Option HPConstraint :=
  (cs.find? fun p => p.1 == n).map fun p => p.2

/-- `constraint[1] == "log"` for the constraint of hyperparameter `n`
(`false` when `n` has no constraint entry). -/
def isLogScaled (cs : List (String × HPConstraint)) (n : String) : Bool :=
  match lookupConstraint cs n with
  | some c => c.scale == "log"
  | none => false

/-- `LLMGenerativeSM._warp_candidate_points` on one row: apply `np.log10` to
every log-scaled field, leave the others unchanged. -/
noncomputable def warpConfig (cs : List (String × HPConstraint))
    (cfg : RConfig) : RConfig :=
  cfg.map fun p => if isLogScaled cs p.1 then (p.1, Real.logb 10 p.2) else p

/-- `LLMGenerativeSM._unwarp_candidate_points` on one row: apply `10 ** x` to
every log-scaled field. -/
noncomputable def unwarpConfig (cs : List (String × HPConstraint))
    (cfg : RConfig) : RConfig :=
  cfg.map fun p => if isLogScaled cs p.1 then (p.1, (10 : ℝ) ^ p.2) else p

/-- `_warp_candidate_points` on a table (one entry per row). -/
noncomputable def warpTable (cs : List (String × HPConstraint))
    (tbl : List RConfig) : List RConfig :=
  tbl.map (warpConfig cs)

/-- `_unwarp_candidate_points` on a table. -/
noncomputable def unwarpTable (cs : List (String × HPConstraint))
    (tbl : List RConfig) : List RConfig :=
  tbl.map (unwarpConfig cs)

/-- `DataFrame.iloc[[i], :]` — select row `i`, raising `IndexError` when out
of range. -/
def pyIloc {α : Type} (l : List α) (i : ℕ) : Except PyErr α :=
  match l.get? i with
  | some x => .ok x
  | none => .error .indexError

/-- `LLMGenerativeSM.select_query_point` (lines 454–476): warp the observed
and candidate tables, obtain the aggregated probability vector for the
candidates, pick `np.argmax(pred_probs)`, unwarp the (warped) candidate table
and return the selected row.  `predProbs` stands for the value awaited from
`_evaluate_candidate_points` — the claim itself quantifies over every
aggregated probability vector, and the production of that vector is modelled
separately by `predict`. -/
noncomputable def select_query_point (cs : List (String × HPConstraint))
    (observedConfigs candidateConfigs : List RConfig)
    (predProbs : List PyVal) : Except PyErr RConfig := do
  let _warpedObserved := warpTable cs observedConfigs
  let warpedCandidates := warpTable cs candidateConfigs
  let bestIdx ← npArgmax predProbs
  let unwarped := unwarpTable cs warpedCandidates
  pyIloc unwarped bestIdx

/-! ## Label assignment (generative_sm_utils.py lines 46–54)

`np.percentile(v, q)` with the default linear interpolation: sort the values,
take the virtual index `h = q/100 * (n-1)` and interpolate linearly between
the neighbouring order statistics.  `int(top_pct * 100)` truncates toward
zero, as Python's `int`. -/

/-- The ascending sort `np.percentile` performs internally. -/
def npSorted (l : List ℚ) : List ℚ :=
  l.mergeSort fun a b => decide (a ≤ b)

/-- Linear interpolation of a value list at virtual index `h` (numpy's
`linear` method): `s[⌊h⌋] + (h − ⌊h⌋) · (s[⌈h⌉] − s[⌊h⌋])` with the upper
index clipped to the last position. -/
def interpAt (s : List ℚ) (h : ℚ) : ℚ :=
  let i := (⌊h⌋).toNat
  let j := min (i + 1) (s.length - 1)
  s.getD i 0 + (h - (⌊h⌋ : ℚ)) * (s.getD j 0 - s.getD i 0)

/-- `np.percentile(l, q)` (linear interpolation; `l` non-empty and
`0 ≤ q ≤ 100` — numpy validates both, and all uses below are inside those
bounds). -/
def npPercentile (l : List ℚ) (q : ℚ) : ℚ :=
  interpAt (npSorted l) (q * ((l.length : ℚ) - 1) / 100)

/-- Python `int(q)`: truncation toward zero. -/
def pyTruncToInt (q : ℚ) : ℤ :=
  if 0 ≤ q then ⌊q⌋ else -⌊-q⌋

/-- The label vector of `prepare_configurations` for `lower_is_better=True`
(line 48): label 1 exactly when the fitness value is strictly below the
`int(top_pct * 100)`-th percentile. -/
def assignLabels (fvals : List ℚ) (topPct : ℚ) : List ℕ :=
  let cutoff := npPercentile fvals ((pyTruncToInt (topPct * 100) : ℚ))
  fvals.map fun x => if x < cutoff then 1 else 0

/-- Number of rows labelled 1. -/
def positiveLabelCount (fvals : List ℚ) (topPct : ℚ) : ℕ :=
  (assignLabels fvals topPct).sum

/-! ## Serialization (generative_sm_utils.py lines 6–15 and 57–76)

Cells of a configuration row are Python scalars: floats (idealized as exact
rationals), ints, or strings.  `f"{v:.{n}f}"` is fixed-point formatting with
`n` digits and round-half-to-even; `format(n, ".10f")` inside
`_count_decimal_places` is the same with 10 digits. -/

/-- A pandas cell as the serialization code sees it. -/
inductive PyCell where
  | float (q : ℚ)
  | int (z : ℤ)
  | str (s : String)
  deriving DecidableEq, Repr

/-- The decimal digit character for `d` (`d < 10` at every use). -/
def digitChar (d : ℕ) : Char :=
  match d with
  | 0 => '0' | 1 => '1' | 2 => '2' | 3 => '3' | 4 => '4'
  | 5 => '5' | 6 => '6' | 7 => '7' | 8 => '8' | _ => '9'

/-- The `n`-digit zero-padded decimal rendering of `k` (`k < 10 ^ n`),
most significant digit first. -/
def natDigitsPadded (n : ℕ) (k : ℕ) : List Char :=
  match n with
  | 0 => []
  | m + 1 => natDigitsPadded m (k / 10) ++ [digitChar (k % 10)]

/-- Round to the nearest integer, ties to even — the rounding of Python's
fixed-point `format`. -/
def roundHalfEven (q : ℚ) : ℤ :=
  let f := ⌊q⌋
  let r := q - (f : ℚ)
  if r < 1 / 2 then f
  else if 1 / 2 < r then f + 1
  else if f % 2 = 0 then f else f + 1

/-- Python `format(q, "." + toString n + "f")`: sign, integer part, and (when
`n > 0`) a point followed by exactly `n` fractional digits. -/
def formatFixed (q : ℚ) (n : ℕ) : String :=
  let scaled := roundHalfEven (q * (10 : ℚ) ^ n)
  let m := scaled.natAbs
  let sign := if q < 0 then "-" else ""
  let ipart := Nat.repr (m / 10 ^ n)
  if n = 0 then sign ++ ipart
  else sign ++ ipart ++ "." ++ String.mk (natDigitsPadded n (m % 10 ^ n))

/-- `_count_decimal_places(n)` (lines 6–15): format with 10 decimal places,
strip trailing zeros from the fractional part, return its length — except
that a fractional part that strips to nothing (an integer-valued bound)
yields 2. -/
def count_decimal_places (q : ℚ) : ℕ :=
  let s := formatFixed q 10
  if s.toList.contains '.' = false then 0
  else
    let fracPart := (s.toList.reverse.takeWhile fun c => c ≠ '.').reverse
    let stripped := (fracPart.reverse.dropWhile fun c => c = '0').reverse
    if stripped.length = 0 then 2 else stripped.length

/-- Python `str` of an *integer-valued* float (the only float case the
serialization's `else` branch receives): the integer followed by `".0"`.
(The scientific notation Python uses beyond 1e16 is outside the modelled
range.) -/
def pyStrIntFloat (q : ℚ) : String :=
  q.num.repr ++ ".0"

/-- Python `str` of a cell as used in the serialization `else` branch. -/
def pyStrCell (c : PyCell) : String :=
  match c with
  | .float q => pyStrIntFloat q
  | .int z => z.repr
  | .str s => s

/-- One `name: value` fragment (lines 64–68): a float that is not integer
valued (`row[i] % 1 != 0`) is fixed-point formatted with `nDp` digits;
everything else goes through `str`. -/
def serializeCell (nDp : ℕ) (name : String) (c : PyCell) : String :=
  match c with
  | .float q =>
    if q.den ≠ 1 then name ++ ": " ++ formatFixed q nDp
    else name ++ ": " ++ pyStrCell c
  | _ => name ++ ": " ++ pyStrCell c

/-- The serialization loop of `prepare_configurations` (lines 57–71) for one
row: for each column, `n_dp = _count_decimal_places(bounds[0]) + 2` where
`bounds = hyperparameter_constraints[name][2]`, then the `name: value`
fragments joined by `", "`. -/
def serializeRow (constraints : List (String × HPConstraint))
    (names : List String) (row : List PyCell) : Except PyErr String := do
  let parts ← (names.zip row).mapM fun p => do
    let constr ← match lookupConstraint constraints p.1 with
      | some c => Except.ok c
      | none => Except.error PyErr.keyError
    let low ← match constr.bounds.head? with
      | some l => Except.ok l
      | none => Except.error PyErr.indexError
    Except.ok (serializeCell (count_decimal_places low + 2) p.1 p.2)
  Except.ok (String.intercalate ", " parts)

/-- Number of characters after the last `.` of a rendered value (its count
of decimal digits, for strings containing one point). -/
def fracDigitCount (s : String) : ℕ :=
  (s.toList.reverse.takeWhile fun c => c ≠ '.').length

/-- Modelled from the spec: the "declared lower bound's own decimal-place
count" — the least number of decimal digits that writes the bound exactly
(`1 ↦ 0`, `0.001 ↦ 3`): the least `n` with `q · 10 ^ n` integral.  (Such an
`n`, when it exists, is at most the reduced denominator, so the search range
suffices; the fallback value is never reached for terminating decimals.) -/
def specDecimalPlaces (q : ℚ) : ℕ :=
  (((List.range q.den).filter fun n => (q * 10 ^ n).den == 1).headD q.den)

/-! ## Sampler adapter (sampler_base.py)

`Sampler.sample_relative` dispatches each trial: an empty relative search
space returns `{}` immediately; trial numbers up to `n_initial_samples` are
served from the random pool generated on trial 1 (which also builds the
constraint set and the LLAMBO instance); later trials run the surrogate
pipeline (`LLAMBO.sample_configurations`, which lives outside the embedded
sources and is abstracted as `surrogateParams`).  Randomness
(`RandomSampler.sample_independent`) is likewise an external collaborator and
is abstracted as a function argument. -/

/-- An optuna distribution, as `_initialize_llambo` dispatches on it.  The
`ValueError` branch for unsupported distribution types is unreachable over
this closed type. -/
inductive PyDist where
  | floatD (low high : ℚ) (log : Bool)
  | intD (low high : ℤ) (log : Bool)
  | catD (choices : List String)
  deriving DecidableEq, Repr

/-- A relative search space: parameter names with their distributions. -/
abbrev SearchSpace := List (String × PyDist)

/-- One concrete parameter assignment returned to the host framework. -/
abbrev ParamAssign := List (String × PyCell)

/-- `study.direction`. -/
inductive StudyDirection where
  | minimize
  | maximize
  deriving DecidableEq, Repr

/-- The `[dtype, dist_type, bounds]` entry `_initialize_llambo` builds for
one distribution (lines 60–78; categorical choice lists are not consulted by
any modelled claim and are represented by empty bounds). -/
def buildConstraint (d : PyDist) : HPConstraint :=
  match d with
  | .floatD low high lg =>
    ⟨"float", if lg then "log" else "linear", [low, high]⟩
  | .intD low high lg =>
    ⟨"int", if lg then "log" else "linear", [(low : ℚ), (high : ℚ)]⟩
  | .catD _ => ⟨"categorical", "categorical", []⟩

/-- The sampler attributes that `sample_relative` reads or writes.  `Option`
fields start as `none` for attributes that `__init__` does not set
(`lower_is_better`, `init_configs`, `search_space`); touching them before
assignment is an `AttributeError`. -/
structure SamplerState where
  nInitialSamples : ℕ
  searchSpace : Option SearchSpace := none
  lowerIsBetter : Option Bool := none
  initConfigs : Option (List ParamAssign) := none
  constraints : Option (List (String × HPConstraint)) := none
  /-- `self.LLAMBO_instance is not None`. -/
  llamboInstance : Bool := false
  /-- `LLAMBO_instance._initialize` has been called (trial `N + 1`). -/
  llamboInitialized : Bool := false
  deriving DecidableEq, Repr

/-- Which arm of `sample_relative` answered the trial. -/
inductive SamplePath where
  /-- The empty-search-space early return (line 148–149). -/
  | emptySpace
  /-- The random-warmup branch serving `init_configs[trial.number - 1]`. -/
  | randomWarmup
  /-- The surrogate-guided branch (`self._sample_parameters()`). -/
  | surrogate
  deriving DecidableEq, Repr

/-- `Sampler.generate_random_samples` (lines 188–208): one sample per
iteration, each drawing every parameter independently through the external
`RandomSampler.sample_independent` (abstracted as `sampleIndependent`). -/
def generate_random_samples (sampleIndependent : String → PyDist → PyCell)
    (space : SearchSpace) (numSamples : ℕ) : List ParamAssign :=
  (List.range numSamples).map fun _ =>
    space.map fun p => (p.1, sampleIndependent p.1 p.2)

/-- `Sampler._initialize_llambo` (lines 57–104): build the constraint set
from the search space and instantiate LLAMBO. -/
def initializeLlambo (s : SamplerState) (space : SearchSpace) : SamplerState :=
  { s with
    constraints := some (space.map fun p => (p.1, buildConstraint p.2)),
    llamboInstance := true }

/-- Python list indexing with negative-index wrap-around. -/
def pyListIndex {α : Type} (l : List α) (i : ℤ) : Except PyErr α :=
  let j := if i < 0 then i + l.length else i
  if h : j.toNat < l.length ∧ 0 ≤ j then .ok (l.get ⟨j.toNat, h.1⟩)
  else .error .indexError

/-- `Sampler.sample_relative` (lines 141–174).  Returns the parameter
assignment, the updated sampler state and the arm that produced the answer.
`surrogateParams` abstracts the value of `self._sample_parameters()` (the
LLAMBO pipeline, outside the embedded sources). -/
def sample_relative (sampleIndependent : String → PyDist → PyCell)
    (surrogateParams : ParamAssign) (s : SamplerState) (trialNumber : ℕ)
    (direction : StudyDirection) (space : SearchSpace) :
    Except PyErr (ParamAssign × SamplerState × SamplePath) :=
  if space.isEmpty then .ok ([], s, .emptySpace)
  else
    let s := { s with searchSpace := some space }
    if trialNumber ≤ s.nInitialSamples then
      let s :=
        if trialNumber = 1 then
          initializeLlambo
            { s with
              lowerIsBetter := some (decide (direction = .minimize)),
              initConfigs :=
                some (generate_random_samples sampleIndependent space
                  s.nInitialSamples) }
            space
        else s
      match s.initConfigs with
      | none => .error .attributeError
      | some pool => do
        let cfg ← pyListIndex pool ((trialNumber : ℤ) - 1)
        .ok (cfg, s, .randomWarmup)
    else
      if s.llamboInstance = false then .error .attributeError
      else
        let s :=
          if trialNumber = s.nInitialSamples + 1 then
            { s with llamboInitialized := true }
          else s
        .ok (surrogateParams, s, .surrogate)

/-- The relative search space the host hands to trial `t`:
`SimpleBaseSampler` computes it as the intersection of the parameter sets of
completed trials, so trial 0 sees an empty space and every later trial of a
single-space study sees the full space. -/
def hostSpaces (fullSpace : SearchSpace) (t : ℕ) : SearchSpace :=
  if t = 0 then [] else fullSpace

/-- The sampler state before trial `t` of a run over `fullSpace`
(sequential trials 0, 1, 2, …). -/
def runState (sampleIndependent : String → PyDist → PyCell)
    (surrogateParams : ParamAssign) (nInit : ℕ) (fullSpace : SearchSpace)
    (direction : StudyDirection) : ℕ → Except PyErr SamplerState
  | 0 => .ok { nInitialSamples := nInit }
  | t + 1 => do
    let s ← runState sampleIndependent surrogateParams nInit fullSpace
      direction t
    let r ← sample_relative sampleIndependent surrogateParams s t direction
      (hostSpaces fullSpace t)
    .ok r.2.1

/-- The answer (assignment and arm) of trial `t` in a run. -/
def runAnswer (sampleIndependent : String → PyDist → PyCell)
    (surrogateParams : ParamAssign) (nInit : ℕ) (fullSpace : SearchSpace)
    (direction : StudyDirection) (t : ℕ) :
    Except PyErr (ParamAssign × SamplePath) := do
  let s ← runState sampleIndependent surrogateParams nInit fullSpace
    direction t
  let r ← sample_relative sampleIndependent surrogateParams s t direction
    (hostSpaces fullSpace t)
  .ok (r.1, r.2.2)

/-- The record a gathered entry contributes to `results[i]` in the
regrouping loop: `none` when the entry is `None` or carries another
candidate's index. -/
def rowSelect (i : ℕ) (e : GatherEntry) : Option RespItem :=
  match e with
  | none => none
  | some (j, r, c, k) => if j = i then some (r, c, k) else none

/-- The sampler state after trial 1 of a run over `space`: the random pool
and the constraint set exist, the LLAMBO instance is constructed, but
`LLAMBO_instance._initialize` has not yet run. -/
def warmupState (sampleIndependent : String → PyDist → PyCell) (nInit : ℕ)
    (space : SearchSpace) (direction : StudyDirection) : SamplerState :=
  { nInitialSamples := nInit, searchSpace := some space,
    lowerIsBetter := some (decide (direction = .minimize)),
    initConfigs :=
      some (generate_random_samples sampleIndependent space nInit),
    constraints := some (space.map fun p => (p.1, buildConstraint p.2)),
    llamboInstance := true, llamboInitialized := false }

/-- The sampler state from trial `nInit + 1` on: as `warmupState`, with the
surrogate initialized. -/
def guidedState (sampleIndependent : String → PyDist → PyCell) (nInit : ℕ)
    (space : SearchSpace) (direction : StudyDirection) : SamplerState :=
  { warmupState sampleIndependent nInit space direction with
    llamboInitialized := true }

/-! # Theorems -/

/-! ## C10 — empty search space -/

/-- C10: for every sampler state, trial and study direction, calling
`sample_relative` with an empty search space returns the empty parameter
assignment and the unchanged state, taking neither the random-warmup nor the
surrogate arm. -/
theorem sample_relative_empty_space
    (sampleIndependent : String → PyDist → PyCell)
    (surrogateParams : ParamAssign) (s : SamplerState) (t : ℕ)
    (d : StudyDirection) :
    sample_relative sampleIndependent surrogateParams s t d [] =
      .ok ([], s, .emptySpace) := rfl

/-! ## C4 — `process_response` -/

unseal Rat.mul Rat.inv Rat.add in
/-- C4 (failing input): the response `"## . ##"` has exactly one match of the
extraction pattern, namely `"."`, on which `float` raises `ValueError`, so
`process_response` raises instead of returning `NaN` — while well-formed and
non-matching inputs behave as documented. -/
theorem process_response_raises_on_dot :
    process_response [some "## . ##"] = .error .valueError ∧
    process_response [some "## 0.75 ##", some "invalid", some "## 1 ## 2 ## 3 ##", none] =
      .ok [some (3 / 4), none, none, none] := by
  constructor <;> decide

/-! ## C5 — success rate -/

unseal Rat.mul Rat.inv Rat.add in
/-- C5 (failing input): one template, two candidates, and the gathered task
for candidate 0 yields `None`, so candidate 0 receives zero raw responses.
The claim's rate (candidates with at least one response over total) is 1/2,
but `_predict` computes `success_rate = 1`, because `bool_pred_returned`
tests `x is not None` against per-candidate lists, which are never `None`. -/
theorem predict_success_rate_counts_lists :
    predict 1 ["q0", "q1"]
      (canonChunks ["t"] ["q0", "q1"]
        (fun _ q => if q = "q0" then none else some (some "## 0.5 ##", 0, 0))) =
      .ok ([none, some (1 / 2)], 1, 0, 0) ∧
    specSuccessRate ["q0", "q1"]
      (canonChunks ["t"] ["q0", "q1"]
        (fun _ q => if q = "q0" then none else some (some "## 0.5 ##", 0, 0))) =
      1 / 2 := by
  constructor <;> decide

/-! ## C1 — selection -/

/-- C1 (failing input): two candidates with aggregated probabilities
`[NaN, 0.8]` (no log-scaled field, so warping is inert).  `np.argmax`
reports the first `NaN`, so `select_query_point` returns candidate 0 — the
all-`NaN` candidate — although candidate 1 holds the maximal (indeed the
only) finite probability. -/
theorem select_query_point_picks_nan_candidate :
    select_query_point [("x", ⟨"float", "linear", [0, 1]⟩)] []
      [[("x", (2 : ℝ))], [("x", (1 / 2 : ℝ))]] [none, some (4 / 5)] =
      .ok [("x", (2 : ℝ))] ∧
    npArgmax [none, some (4 / 5)] = .ok 0 ∧
    PyVal.isNaN none = true ∧ PyVal.isNaN (some (4 / 5)) = false := by
  refine ⟨?_, rfl, rfl, rfl⟩
  show Except.ok _ = _
  rfl

/-! ## C8 — rate limiter acquisition -/

/-- C8 (counterexample): the event trace of an outbound query contains a
`queryLLM` event with no preceding `acquireRateLimiter` event — the claim
that every outbound query is preceded by an acquisition fails on the very
first query. -/
theorem async_generate_query_without_acquire :
    ¬ acquiredBeforeQuery
      ((asyncGenerate (fun _ => (none, 0)) "tmpl {Q}" "q" 0).2) := by
  decide

/-- C8 (amended): `_async_generate` issues its outbound query without ever
consulting the rate limiter: its trace is exactly one `queryLLM` event and
contains no `acquireRateLimiter` event, for every oracle, template, query
and index.  (The rate limiter is created in `__init__` but never acquired.) -/
theorem async_generate_never_acquires
    (ask : List (String × String) → Option String × ℚ)
    (tmpl q : String) (i : ℕ) :
    (asyncGenerate ask tmpl q i).2 = [SMEvent.queryLLM] ∧
    SMEvent.acquireRateLimiter ∉ (asyncGenerate ask tmpl q i).2 := by
  refine ⟨rfl, ?_⟩
  intro h
  simp [asyncGenerate] at h

/-! ## C3 — warp/unwarp round trip -/

/-- C3: when every log-scaled field of a configuration is positive, unwarping
the warped configuration restores it exactly, and every field not flagged
log-scale is left in place, unchanged, by both `_warp_candidate_points` and
`_unwarp_candidate_points`. -/
theorem warp_unwarp_roundtrip (cs : List (String × HPConstraint))
    (cfg : RConfig)
    (hpos : ∀ p ∈ cfg, isLogScaled cs p.1 = true → 0 < p.2) :
    unwarpConfig cs (warpConfig cs cfg) = cfg ∧
    (∀ i (hi : i < cfg.length), isLogScaled cs cfg[i].1 = false →
      (warpConfig cs cfg)[i]? = some cfg[i] ∧
      (unwarpConfig cs cfg)[i]? = some cfg[i]) := by
  constructor
  · unfold unwarpConfig warpConfig
    rw [List.map_map]
    have : ∀ p ∈ cfg,
        ((fun p : String × ℝ =>
            if isLogScaled cs p.1 then (p.1, (10 : ℝ) ^ p.2) else p) ∘
          (fun p : String × ℝ =>
            if isLogScaled cs p.1 then (p.1, Real.logb 10 p.2) else p)) p =
          id p := by
      intro p hp
      by_cases hl : isLogScaled cs p.1
      · simp only [Function.comp_apply, hl, if_true, id]
        have hx : 0 < p.2 := hpos p hp hl
        rw [Real.rpow_logb (by norm_num) (by norm_num) hx]
      · simp only [Function.comp_apply, hl, if_false, id]
        simp [hl]
    rw [List.map_congr_left this, List.map_id]
  · intro i hi hflat
    have hget : cfg[i]? = some cfg[i] := List.getElem?_eq_getElem hi
    constructor
    · unfold warpConfig
      rw [List.getElem?_map, hget]
      simp [hflat]
    · unfold unwarpConfig
      rw [List.getElem?_map, hget]
      simp [hflat]

/-- C3 (witness): the spec's own scenario — a log-scaled field with lower
bound `0.001` and value `0.01` warps to `-2.0` and unwarps back to `0.01`,
via the round-trip theorem instantiated at that configuration. -/
theorem warp_unwarp_roundtrip_witness :
    unwarpConfig [("lr", ⟨"float", "log", [1 / 1000, 1]⟩)]
      (warpConfig [("lr", ⟨"float", "log", [1 / 1000, 1]⟩)]
        [("lr", (0.01 : ℝ))]) = [("lr", (0.01 : ℝ))] ∧
    warpConfig [("lr", ⟨"float", "log", [1 / 1000, 1]⟩)]
      [("lr", (0.01 : ℝ))] = [("lr", (-2 : ℝ))] := by
  constructor
  · exact (warp_unwarp_roundtrip _ _ (by
      intro p hp _
      simp only [List.mem_singleton] at hp
      subst hp
      norm_num)).1
  · unfold warpConfig
    have hlog : isLogScaled [("lr", ⟨"float", "log", [1 / 1000, 1]⟩)] "lr" = true := rfl
    simp only [List.map_cons, List.map_nil, hlog, if_true]
    have : Real.logb 10 (0.01 : ℝ) = -2 := by
      have h1 : (0.01 : ℝ) = (10 : ℝ) ^ ((-2 : ℤ) : ℝ) := by
        rw [Real.rpow_intCast]
        norm_num
      rw [h1, Real.logb_rpow (by norm_num) (by norm_num)]
      norm_num
    rw [this]

/-! ## C7 — serialization precision -/

theorem digitChar_ne_dot (d : ℕ) : digitChar d ≠ '.' := by
  unfold digitChar
  split <;> decide

theorem natDigitsPadded_length (n k : ℕ) : (natDigitsPadded n k).length = n := by
  induction n generalizing k with
  | zero => rfl
  | succ m ih => simp [natDigitsPadded, ih]

theorem natDigitsPadded_ne_dot (n k : ℕ) :
    ∀ c ∈ natDigitsPadded n k, c ≠ '.' := by
  induction n generalizing k with
  | zero => intro c hc; simp [natDigitsPadded] at hc
  | succ m ih =>
    intro c hc
    simp only [natDigitsPadded, List.mem_append, List.mem_singleton] at hc
    rcases hc with h | h
    · exact ih _ _ h
    · subst h; exact digitChar_ne_dot _

theorem takeWhile_append_cons_of_all {α : Type} (p : α → Bool) (l : List α)
    (a : α) (r : List α) (hl : ∀ x ∈ l, p x = true) (ha : p a = false) :
    (l ++ a :: r).takeWhile p = l := by
  induction l with
  | nil => simp [List.takeWhile_cons, ha]
  | cons x xs ih =>
    have hx : p x = true := hl x (List.mem_cons_self x xs)
    simp only [List.cons_append, List.takeWhile_cons, hx, if_true]
    rw [ih fun y hy => hl y (List.mem_cons_of_mem x hy)]

/-- The rendered fixed-point value carries exactly `n` digits after the
decimal point, whatever text precedes it. -/
theorem fracDigitCount_formatFixed (s : String) (q : ℚ) (n : ℕ) (hn : n ≠ 0) :
    fracDigitCount (s ++ formatFixed q n) = n := by
  unfold fracDigitCount formatFixed
  simp only [if_neg hn]
  simp only [String.toList, String.data_append, List.reverse_append,
    List.reverse_cons, List.reverse_nil, List.nil_append, List.append_assoc,
    List.cons_append, List.singleton_append]
  rw [takeWhile_append_cons_of_all]
  · exact (List.length_reverse _).trans (natDigitsPadded_length _ _)
  · intro x hx
    rw [List.mem_reverse] at hx
    simpa using natDigitsPadded_ne_dot _ _ x hx
  · simp

unseal Rat.mul Rat.inv Rat.add Rat.sub in
/-- C7 (counterexample): with the integer lower bound `1` (its own
decimal-place count is 0, so the claim mandates 2 digits), the non-integer
float `2.5` is rendered as `"x: 2.5000"` — four fractional digits, because
`_count_decimal_places` reports 2 (not 0) for an integer-valued bound — and
the integer-valued float `2.0` is rendered as `"x: 2.0"`, which does contain
a decimal point. -/
theorem serialize_row_counterexample :
    serializeRow [("x", ⟨"float", "linear", [1, 10]⟩)] ["x"]
      [PyCell.float (5 / 2)] = .ok "x: 2.5000" ∧
    fracDigitCount "x: 2.5000" = 4 ∧
    specDecimalPlaces 1 + 2 = 2 ∧
    serializeRow [("x", ⟨"float", "linear", [1, 10]⟩)] ["x"]
      [PyCell.float 2] = .ok "x: 2.0" ∧
    '.' ∈ "x: 2.0".toList := by
  refine ⟨by decide, by decide, by decide, by decide, by decide⟩

/-- C7 (amended): a non-integer float value is rendered with
`_count_decimal_places(low) + 2` fractional digits, where
`_count_decimal_places` returns the lower bound's decimal-place count except
that an integer-valued bound yields 2 (so integer bounds produce 4 digits,
not 2); an integer-valued float is rendered through `str` as the integer
followed by `".0"` — one digit after a decimal point, not pointless. -/
theorem serialize_row_precision (name dtype scale : String) (low : ℚ)
    (rest : List ℚ) (q : ℚ) :
    (q.den ≠ 1 →
      serializeRow [(name, ⟨dtype, scale, low :: rest⟩)] [name]
          [PyCell.float q] =
        .ok (name ++ ": " ++ formatFixed q (count_decimal_places low + 2)) ∧
      fracDigitCount
          (name ++ ": " ++ formatFixed q (count_decimal_places low + 2)) =
        count_decimal_places low + 2) ∧
    (q.den = 1 →
      serializeRow [(name, ⟨dtype, scale, low :: rest⟩)] [name]
          [PyCell.float q] =
        .ok (name ++ ": " ++ (q.num.repr ++ ".0")) ∧
      fracDigitCount (name ++ ": " ++ (q.num.repr ++ ".0")) = 1) := by
  have hlook : lookupConstraint [(name, ⟨dtype, scale, low :: rest⟩)] name =
      some ⟨dtype, scale, low :: rest⟩ := by
    simp [lookupConstraint, List.find?]
  constructor
  · intro hden
    constructor
    · simp only [serializeRow, List.zip, List.zipWith, List.mapM, List.mapM.loop,
        hlook, serializeCell, if_pos hden]
      rfl
    · exact fracDigitCount_formatFixed _ _ _ (by omega)
  · intro hden
    constructor
    · simp only [serializeRow, List.zip, List.zipWith, List.mapM, List.mapM.loop,
        hlook, serializeCell, hden, ne_eq, not_true_eq_false, if_false,
        pyStrCell, pyStrIntFloat]
      rfl
    · unfold fracDigitCount
      simp only [String.toList, String.data_append, List.reverse_append,
        List.reverse_cons, List.reverse_nil, List.nil_append,
        List.append_assoc, List.cons_append, List.singleton_append]
      simp [List.takeWhile_cons]

unseal Rat.mul Rat.inv Rat.add Rat.sub in
/-- C7 (witness): the amended statement applied at lower bound `0.001`
(three decimal places, so five digits) and values `0.01` and `2.0`. -/
theorem serialize_row_precision_witness :
    serializeRow [("lr", ⟨"float", "log", [1 / 1000, 1]⟩)] ["lr"]
        [PyCell.float (1 / 100)] =
      .ok ("lr" ++ ": " ++ formatFixed (1 / 100)
        (count_decimal_places (1 / 1000) + 2)) ∧
    serializeRow [("lr", ⟨"float", "log", [1 / 1000, 1]⟩)] ["lr"]
        [PyCell.float 2] = .ok ("lr" ++ ": " ++ ((2 : ℚ).num.repr ++ ".0")) := by
  constructor
  · exact ((serialize_row_precision "lr" "float" "log" (1 / 1000) [1]
      (1 / 100)).1 (by decide)).1
  · exact ((serialize_row_precision "lr" "float" "log" (1 / 1000) [1]
      (2 : ℚ)).2 (by decide)).1


/-! ## C9 — random warmup, then surrogate -/

theorem generate_random_samples_length
    (sampleIndependent : String → PyDist → PyCell) (space : SearchSpace)
    (n : ℕ) :
    (generate_random_samples sampleIndependent space n).length = n := by
  simp [generate_random_samples]

theorem pyListIndex_nat {α : Type} (l : List α) (i : ℕ) (h : i < l.length) :
    pyListIndex l (i : ℤ) = .ok l[i] := by
  unfold pyListIndex
  have h0 : ¬ ((i : ℤ) < 0) := by omega
  simp only [h0, if_false]
  rw [dif_pos ⟨by simpa [Int.toNat_natCast] using h, by omega⟩]
  rfl

theorem sample_relative_trial_one (si : String → PyDist → PyCell)
    (sur : ParamAssign) (N : ℕ) (fs : SearchSpace) (d : StudyDirection)
    (hne : fs.isEmpty = false) (hN : 1 ≤ N) :
    sample_relative si sur { nInitialSamples := N } 1 d fs =
      .ok ((generate_random_samples si fs N).getD 0 [],
        warmupState si N fs d, .randomWarmup) := by
  have h0 : 0 < (generate_random_samples si fs N).length := by
    rw [generate_random_samples_length]; omega
  have hp : pyListIndex (generate_random_samples si fs N)
      (((1 : ℕ) : ℤ) - 1) =
      .ok ((generate_random_samples si fs N).getD 0 []) := by
    rw [show (((1 : ℕ) : ℤ) - 1) = ((0 : ℕ) : ℤ) from rfl,
      pyListIndex_nat _ 0 h0, List.getD_eq_getElem _ _ h0]
  unfold sample_relative
  simp only [hne, Bool.false_eq_true, if_false, initializeLlambo, if_true]
  rw [if_pos hN]
  conv_lhs => whnf
  rw [hp]
  rfl

theorem sample_relative_warmup_step (si : String → PyDist → PyCell)
    (sur : ParamAssign) (N : ℕ) (fs : SearchSpace) (d : StudyDirection)
    (t : ℕ) (hne : fs.isEmpty = false) (h2 : 2 ≤ t) (htN : t ≤ N) :
    sample_relative si sur (warmupState si N fs d) t d fs =
      .ok ((generate_random_samples si fs N).getD (t - 1) [],
        warmupState si N fs d, .randomWarmup) := by
  have hlt : t - 1 < (generate_random_samples si fs N).length := by
    rw [generate_random_samples_length]; omega
  have hp : pyListIndex (generate_random_samples si fs N) ((t : ℤ) - 1) =
      .ok ((generate_random_samples si fs N).getD (t - 1) []) := by
    rw [show ((t : ℤ) - 1) = ((t - 1 : ℕ) : ℤ) by omega,
      pyListIndex_nat _ _ hlt, List.getD_eq_getElem _ _ hlt]
  unfold sample_relative warmupState
  simp only [Bool.false_eq_true, if_false, hne]
  rw [if_pos htN, if_neg (by omega : ¬ t = 1)]
  conv_lhs => whnf
  rw [hp]

theorem sample_relative_first_guided (si : String → PyDist → PyCell)
    (sur : ParamAssign) (N : ℕ) (fs : SearchSpace) (d : StudyDirection)
    (hne : fs.isEmpty = false) :
    sample_relative si sur (warmupState si N fs d) (N + 1) d fs =
      .ok (sur, guidedState si N fs d, .surrogate) := by
  unfold sample_relative warmupState guidedState
  simp only [Bool.false_eq_true, if_false, hne]
  rw [if_neg (by omega : ¬ N + 1 ≤ N)]
  conv_lhs => whnf
  simp only [if_true]
  rfl

theorem sample_relative_steady (si : String → PyDist → PyCell)
    (sur : ParamAssign) (N : ℕ) (fs : SearchSpace) (d : StudyDirection)
    (t : ℕ) (hne : fs.isEmpty = false) (ht : N + 2 ≤ t) :
    sample_relative si sur (guidedState si N fs d) t d fs =
      .ok (sur, guidedState si N fs d, .surrogate) := by
  unfold sample_relative guidedState warmupState
  simp only [Bool.false_eq_true, if_false, hne]
  rw [if_neg (by omega : ¬ t ≤ N)]
  conv_lhs => whnf
  rw [if_neg (by omega : ¬ t = N + 1)]

theorem ok_bind {ε α β : Type} (a : α) (f : α → Except ε β) :
    (Except.ok a : Except ε α) >>= f = f a := rfl

theorem hostSpaces_pos (fs : SearchSpace) (t : ℕ) (h : t ≠ 0) :
    hostSpaces fs t = fs := by
  unfold hostSpaces
  rw [if_neg h]

/-- C9: in a run over a non-empty search space with `N ≥ 1` configured
initial samples, every trial numbered 1 through `N` — the `N` trials that
actually reach the sampler's dispatch, trial 0 being answered by the
empty-space arm because the host infers an empty relative space before any
trial completes — is answered from the random pool precomputed on trial 1,
by the random-warmup arm and without touching the surrogate, and every trial
after the `N`-th is answered by the surrogate arm. -/
theorem warmup_then_surrogate (si : String → PyDist → PyCell)
    (sur : ParamAssign) (N : ℕ) (fs : SearchSpace) (d : StudyDirection)
    (hsp : fs ≠ []) (hN : 1 ≤ N) :
    (∀ t, 1 ≤ t → t ≤ N →
      runAnswer si sur N fs d t =
        .ok ((generate_random_samples si fs N).getD (t - 1) [],
          .randomWarmup)) ∧
    (∀ t, N < t →
      runAnswer si sur N fs d t = .ok (sur, .surrogate)) := by
  have hne : fs.isEmpty = false := by simp [hsp]
  have hs1 : runState si sur N fs d 1 = .ok { nInitialSamples := N } := rfl
  have hwarm : ∀ t, 2 ≤ t → t ≤ N + 1 →
      runState si sur N fs d t = .ok (warmupState si N fs d) := by
    intro t h2 hle
    induction t with
    | zero => omega
    | succ k ih =>
      rw [runState]
      by_cases hk : k = 1
      · subst hk
        rw [hs1, ok_bind, hostSpaces_pos fs 1 (by omega),
          sample_relative_trial_one si sur N fs d hne hN, ok_bind]
      · rw [ih (by omega) (by omega), ok_bind,
          hostSpaces_pos fs k (by omega),
          sample_relative_warmup_step si sur N fs d k hne (by omega)
            (by omega), ok_bind]
  have hguided : ∀ t, N + 2 ≤ t →
      runState si sur N fs d t = .ok (guidedState si N fs d) := by
    intro t ht
    induction t with
    | zero => omega
    | succ k ih =>
      rw [runState]
      by_cases hk : k = N + 1
      · subst hk
        rw [hwarm (N + 1) (by omega) (by omega), ok_bind,
          hostSpaces_pos fs (N + 1) (by omega),
          sample_relative_first_guided si sur N fs d hne, ok_bind]
      · rw [ih (by omega), ok_bind, hostSpaces_pos fs k (by omega),
          sample_relative_steady si sur N fs d k hne (by omega), ok_bind]
  constructor
  · intro t h1 h2
    unfold runAnswer
    by_cases ht1 : t = 1
    · subst ht1
      rw [hs1, ok_bind, hostSpaces_pos fs 1 (by omega),
        sample_relative_trial_one si sur N fs d hne hN, ok_bind]
    · rw [hwarm t (by omega) (by omega), ok_bind,
        hostSpaces_pos fs t (by omega),
        sample_relative_warmup_step si sur N fs d t hne (by omega) h2,
        ok_bind]
  · intro t ht
    unfold runAnswer
    by_cases htN : t = N + 1
    · subst htN
      rw [hwarm (N + 1) (by omega) (by omega), ok_bind,
        hostSpaces_pos fs (N + 1) (by omega),
        sample_relative_first_guided si sur N fs d hne, ok_bind]
    · rw [hguided t (by omega), ok_bind, hostSpaces_pos fs t (by omega),
        sample_relative_steady si sur N fs d t hne (by omega), ok_bind]

/-- C9 (witness): a run with one float parameter and `N = 2`: trial 2 is
answered from the precomputed pool by the random-warmup arm, trial 5 by the
surrogate arm. -/
theorem warmup_then_surrogate_witness :
    runAnswer (fun _ _ => PyCell.int 7) [("x", PyCell.int 1)] 2
        [("x", PyDist.floatD 0 1 false)] .minimize 2 =
      .ok ((generate_random_samples (fun _ _ => PyCell.int 7)
        [("x", PyDist.floatD 0 1 false)] 2).getD 1 [], .randomWarmup) ∧
    runAnswer (fun _ _ => PyCell.int 7) [("x", PyCell.int 1)] 2
        [("x", PyDist.floatD 0 1 false)] .minimize 5 =
      .ok ([("x", PyCell.int 1)], .surrogate) := by
  constructor
  · exact (warmup_then_surrogate (fun _ _ => PyCell.int 7)
      [("x", PyCell.int 1)] 2 [("x", PyDist.floatD 0 1 false)] .minimize
      (by decide) (by decide)).1 2 (by decide) (by decide)
  · exact (warmup_then_surrogate (fun _ _ => PyCell.int 7)
      [("x", PyCell.int 1)] 2 [("x", PyDist.floatD 0 1 false)] .minimize
      (by decide) (by decide)).2 5 (by decide)

/-! ## C6 — label monotonicity -/

theorem sorted_getD_mono (s : List ℚ)
    (hs : List.Pairwise (fun a b : ℚ => a ≤ b) s) (i j : ℕ) (hij : i ≤ j)
    (hj : j < s.length) : s.getD i 0 ≤ s.getD j 0 := by
  rcases Nat.eq_or_lt_of_le hij with rfl | h
  · exact le_refl _
  · have := List.pairwise_iff_get.mp hs ⟨i, by omega⟩ ⟨j, hj⟩ h
    rw [List.getD_eq_getElem _ _ (by omega : i < s.length),
      List.getD_eq_getElem _ _ hj]
    simpa [List.get_eq_getElem] using this

theorem interpAt_mono (s : List ℚ)
    (hs : List.Pairwise (fun a b : ℚ => a ≤ b) s) (hlen : s ≠ [])
    (h h' : ℚ) (h0 : 0 ≤ h) (hhh : h ≤ h')
    (hup : h' ≤ (s.length : ℚ) - 1) : interpAt s h ≤ interpAt s h' := by
  have hn1 : 1 ≤ s.length := List.length_pos.mpr hlen
  have hf0 : 0 ≤ ⌊h⌋ := Int.floor_nonneg.mpr h0
  have hf'0 : 0 ≤ ⌊h'⌋ := Int.floor_nonneg.mpr (le_trans h0 hhh)
  have hff : ⌊h⌋ ≤ ⌊h'⌋ := Int.floor_le_floor hhh
  have hfub : ⌊h'⌋ ≤ (s.length : ℤ) - 1 := by
    have h1 : (⌊h'⌋ : ℚ) ≤ (s.length : ℚ) - 1 := le_trans (Int.floor_le h') hup
    exact_mod_cast h1
  have hiub : ⌊h'⌋.toNat ≤ s.length - 1 := by omega
  have hii : ⌊h⌋.toNat ≤ ⌊h'⌋.toNat := Int.toNat_le_toNat hff
  have hfrac0 : (0 : ℚ) ≤ h - ⌊h⌋ := sub_nonneg.mpr (Int.floor_le h)
  have hfrac0' : (0 : ℚ) ≤ h' - ⌊h'⌋ := sub_nonneg.mpr (Int.floor_le h')
  have hfrac1 : h - ⌊h⌋ ≤ 1 := by
    have := Int.lt_floor_add_one h
    linarith
  simp only [interpAt]
  rcases Nat.eq_or_lt_of_le hii with heq | hlt
  · -- same segment: a line with non-negative slope
    have hfeq : ⌊h⌋ = ⌊h'⌋ := by omega
    rw [← hfeq]
    have hjle : min (⌊h⌋.toNat + 1) (s.length - 1) < s.length := by omega
    have hsj : s.getD ⌊h⌋.toNat 0 ≤
        s.getD (min (⌊h⌋.toNat + 1) (s.length - 1)) 0 :=
      sorted_getD_mono s hs _ _ (by omega) hjle
    have hmul : (h - ⌊h⌋) * (s.getD (min (⌊h⌋.toNat + 1) (s.length - 1)) 0 -
        s.getD ⌊h⌋.toNat 0) ≤ (h' - ⌊h⌋) *
        (s.getD (min (⌊h⌋.toNat + 1) (s.length - 1)) 0 -
          s.getD ⌊h⌋.toNat 0) := by
      apply mul_le_mul_of_nonneg_right (by linarith) (by linarith)
    linarith
  · -- the lower point sits in an earlier segment
    have hjlt : min (⌊h⌋.toNat + 1) (s.length - 1) < s.length := by omega
    have hjlt' : min (⌊h'⌋.toNat + 1) (s.length - 1) < s.length := by omega
    have hilt' : ⌊h'⌋.toNat < s.length := by omega
    have hsij : s.getD ⌊h⌋.toNat 0 ≤
        s.getD (min (⌊h⌋.toNat + 1) (s.length - 1)) 0 :=
      sorted_getD_mono s hs _ _ (by omega) hjlt
    have hxfer : s.getD (min (⌊h⌋.toNat + 1) (s.length - 1)) 0 ≤
        s.getD ⌊h'⌋.toNat 0 :=
      sorted_getD_mono s hs _ _ (by omega) hilt'
    have hsij' : s.getD ⌊h'⌋.toNat 0 ≤
        s.getD (min (⌊h'⌋.toNat + 1) (s.length - 1)) 0 :=
      sorted_getD_mono s hs _ _ (by omega) hjlt'
    have hup1 : (0 : ℚ) ≤ (1 - (h - ⌊h⌋)) *
        (s.getD (min (⌊h⌋.toNat + 1) (s.length - 1)) 0 -
          s.getD ⌊h⌋.toNat 0) :=
      mul_nonneg (by linarith) (by linarith)
    have hup2 : (0 : ℚ) ≤ (h' - ⌊h'⌋) *
        (s.getD (min (⌊h'⌋.toNat + 1) (s.length - 1)) 0 -
          s.getD ⌊h'⌋.toNat 0) :=
      mul_nonneg (by linarith) (by linarith)
    nlinarith [hup1, hup2, hxfer]

theorem npSorted_pairwise (l : List ℚ) :
    List.Pairwise (fun a b : ℚ => a ≤ b) (npSorted l) := by
  have h := @List.sorted_mergeSort ℚ (fun a b : ℚ => decide (a ≤ b))
    (fun a b c hab hbc => by
      simp only [decide_eq_true_eq] at *
      exact le_trans hab hbc)
    (fun a b => by
      simpa using le_total a b) l
  unfold npSorted
  exact h.imp fun hab => by simpa using hab

theorem npPercentile_mono (l : List ℚ) (hl : l ≠ []) (q q' : ℚ)
    (h0 : 0 ≤ q) (hqq : q ≤ q') (h100 : q' ≤ 100) :
    npPercentile l q ≤ npPercentile l q' := by
  have hn1 : 1 ≤ l.length := List.length_pos.mpr hl
  have hlen : (npSorted l).length = l.length := List.length_mergeSort l
  have hslen : ((npSorted l).length : ℚ) - 1 = (l.length : ℚ) - 1 := by
    rw [hlen]
  have hc0 : (0 : ℚ) ≤ (l.length : ℚ) - 1 := by
    have : (1 : ℚ) ≤ (l.length : ℚ) := by exact_mod_cast hn1
    linarith
  unfold npPercentile
  apply interpAt_mono (npSorted l) (npSorted_pairwise l)
    (by rw [← List.length_pos, hlen]; omega)
  · positivity
  · apply div_le_div_of_nonneg_right ?_ (by norm_num : (0:ℚ) ≤ 100)
    exact mul_le_mul_of_nonneg_right hqq hc0
  · rw [hslen]
    rw [div_le_iff₀ (by norm_num : (0:ℚ) < 100)]
    nlinarith

/-- C6: for a fixed fitness vector with `lower_is_better = True`, decreasing
the top-fraction threshold never increases the number of rows labelled 1 by
the percentile-based label assignment of `prepare_configurations`. -/
theorem label_monotonicity (fvals : List ℚ) (t1 t2 : ℚ) (hne : fvals ≠ [])
    (h0 : 0 ≤ t2) (h21 : t2 < t1) (h1 : t1 ≤ 1) :
    positiveLabelCount fvals t2 ≤ positiveLabelCount fvals t1 := by
  have hq2 : pyTruncToInt (t2 * 100) = ⌊t2 * 100⌋ := by
    unfold pyTruncToInt
    rw [if_pos (by nlinarith : (0:ℚ) ≤ t2 * 100)]
  have hq1 : pyTruncToInt (t1 * 100) = ⌊t1 * 100⌋ := by
    unfold pyTruncToInt
    rw [if_pos (by nlinarith : (0:ℚ) ≤ t1 * 100)]
  have hp : npPercentile fvals ((pyTruncToInt (t2 * 100) : ℤ) : ℚ) ≤
      npPercentile fvals ((pyTruncToInt (t1 * 100) : ℤ) : ℚ) := by
    rw [hq1, hq2]
    apply npPercentile_mono fvals hne
    · exact_mod_cast Int.floor_nonneg.mpr (by nlinarith : (0:ℚ) ≤ t2 * 100)
    · have : ⌊t2 * 100⌋ ≤ ⌊t1 * 100⌋ :=
        Int.floor_le_floor (by nlinarith)
      exact_mod_cast this
    · have h1' : t1 * 100 ≤ 100 := by nlinarith
      have : ⌊t1 * 100⌋ ≤ (100 : ℤ) := by
        have := Int.floor_le_floor h1'
        simpa using this
      exact_mod_cast this
  unfold positiveLabelCount assignLabels
  apply List.sum_le_sum
  intro x _
  by_cases hx : x < npPercentile fvals ((pyTruncToInt (t2 * 100) : ℤ) : ℚ)
  · rw [if_pos hx, if_pos (lt_of_lt_of_le hx hp)]
  · rw [if_neg hx]
    split <;> omega

/-- C6 (witness): the monotonicity theorem applied to the fitness vector
`[1, 2, 3, 4]` with thresholds `0.5 > 0.25`. -/
theorem label_monotonicity_witness :
    positiveLabelCount [1, 2, 3, 4] (1 / 4) ≤
      positiveLabelCount [1, 2, 3, 4] (1 / 2) :=
  label_monotonicity [1, 2, 3, 4] (1 / 2) (1 / 4) (by decide)
    (by norm_num) (by norm_num) (by norm_num)

/-! ## C2 — one probability per candidate, order and completion independence -/

theorem perm_any_eq {α : Type} {l l' : List α} (h : l.Perm l') (f : α → Bool) :
    l.any f = l'.any f := by
  rw [Bool.eq_iff_iff]
  simp only [List.any_eq_true]
  constructor
  · rintro ⟨x, hx, hfx⟩
    exact ⟨x, h.mem_iff.mp hx, hfx⟩
  · rintro ⟨x, hx, hfx⟩
    exact ⟨x, h.mem_iff.mpr hx, hfx⟩

theorem error_bind {ε α β : Type} (e : ε) (f : α → Except ε β) :
    (Except.error e : Except ε α) >>= f = .error e := rfl

theorem map_ok {ε α β : Type} (f : α → β) (a : α) :
    (f <$> (Except.ok a : Except ε α)) = .ok (f a) := rfl

theorem map_error {ε α β : Type} (f : α → β) (e : ε) :
    (f <$> (Except.error e : Except ε α)) = .error e := rfl

theorem procOne_eq (raw : Option String) :
    procOne raw = if procOneFails raw then .error .valueError
      else .ok (procOneVal raw) := by
  cases raw with
  | none => rfl
  | some s =>
    simp only [procOne, procOneFails, procOneVal]
    by_cases hl : (reFindAllPred s).length = 1
    · rw [if_pos hl]
      cases hf : pyFloat ((reFindAllPred s).headD "") with
      | some q => simp [hl]
      | none => simp [hl]
    · rw [if_neg hl]
      simp [hl]

theorem process_response_eq (rs : List (Option String)) :
    process_response rs = if rs.any procOneFails then .error .valueError
      else .ok (rs.map procOneVal) := by
  induction rs with
  | nil => rfl
  | cons r rs ih =>
    unfold process_response at *
    rw [List.mapM_cons, procOne_eq]
    by_cases hf : procOneFails r
    · rw [if_pos hf, List.any_cons, hf]
      simp [error_bind]
    · have hfb : procOneFails r = false := by simpa using hf
      rw [if_neg hf, ok_bind, List.any_cons, hfb, Bool.false_or]
      by_cases ha : rs.any procOneFails
      · rw [ih, if_pos ha, if_pos ha]
        rfl
      · rw [ih]
        rw [if_neg ?hcond, if_neg ?hcond]
        case hcond => simp [ha]
        rfl

theorem foldl_regroupStep_length (g : List GatherEntry) :
    ∀ acc : List (List RespItem),
      (g.foldl regroupStep acc).length = acc.length := by
  induction g with
  | nil => intro acc; rfl
  | cons e g ih =>
    intro acc
    rw [List.foldl_cons, ih]
    rcases e with _ | ⟨j, r, c, k⟩ <;> simp [regroupStep]

theorem generate_concurrently_length (nq : ℕ) (g : List GatherEntry) :
    (generate_concurrently nq g).length = nq := by
  unfold generate_concurrently
  rw [foldl_regroupStep_length]
  exact List.length_replicate nq []

theorem foldl_regroupStep_getD (g : List GatherEntry) :
    ∀ (acc : List (List RespItem)) (i : ℕ), i < acc.length →
      (g.foldl regroupStep acc).getD i [] =
        acc.getD i [] ++ g.filterMap (rowSelect i) := by
  induction g with
  | nil => intro acc i hi; simp
  | cons e g ih =>
    intro acc i hi
    rw [List.foldl_cons]
    rcases e with _ | ⟨j, r, c, k⟩
    · rw [show regroupStep acc none = acc from rfl, ih acc i hi]
      simp [rowSelect]
    · rw [show regroupStep acc (some (j, r, c, k)) =
        acc.set j (acc.getD j [] ++ [(r, c, k)]) from rfl]
      rw [ih _ i (by rw [List.length_set]; exact hi)]
      by_cases hij : j = i
      · subst hij
        rw [List.getD_eq_getElem _ _
          (by rw [List.length_set]; exact hi : j < (acc.set j _).length)]
        rw [List.getElem_set_self]
        simp [rowSelect, List.append_assoc]
      · rw [List.getD_eq_getElem?_getD, List.getElem?_set_ne hij,
          ← List.getD_eq_getElem?_getD]
        simp [rowSelect, hij]

theorem generate_concurrently_getD (nq : ℕ) (g : List GatherEntry) (i : ℕ)
    (hi : i < nq) :
    (generate_concurrently nq g).getD i [] = g.filterMap (rowSelect i) := by
  unfold generate_concurrently
  rw [foldl_regroupStep_getD g _ i (by simpa using hi)]
  simp [List.getD_eq_getElem?_getD, List.getElem?_replicate, hi]

theorem nanmean_perm {l l' : List PyVal} (h : l.Perm l') :
    nanmean l = nanmean l' := by
  simp only [nanmean]
  have hp := h.filterMap (id : PyVal → Option ℚ)
  rw [hp.length_eq, hp.sum_eq]

theorem samplePreds_eq (g : ℕ) (row : List RespItem) :
    samplePreds g row =
      if row.isEmpty then .ok (List.replicate g none)
      else if (rowRaw row).any procOneFails then .error .valueError
      else .ok ((rowRaw row).map procOneVal) := by
  unfold samplePreds
  by_cases he : row.isEmpty
  · rw [if_pos he, if_pos he]
  · rw [if_neg he, if_neg he, process_response_eq]

theorem isEmpty_eq_of_perm {α : Type} {l l' : List α} (h : l.Perm l') :
    l.isEmpty = l'.isEmpty := by
  cases l with
  | nil => cases l' with
    | nil => rfl
    | cons x xs => exact absurd h.length_eq (by simp)
  | cons x xs => cases l' with
    | nil => exact absurd h.length_eq (by simp)
    | cons y ys => rfl

theorem samplePreds_perm (g : ℕ) {r r' : List RespItem} (hp : r.Perm r') :
    (samplePreds g r = .error .valueError ∧
      samplePreds g r' = .error .valueError) ∨
    (∃ l l', samplePreds g r = .ok l ∧ samplePreds g r' = .ok l' ∧
      l.Perm l') := by
  have hraw : (rowRaw r).Perm (rowRaw r') := hp.map _
  have he : r.isEmpty = r'.isEmpty := isEmpty_eq_of_perm hp
  rw [samplePreds_eq, samplePreds_eq, ← he]
  by_cases hemp : r.isEmpty
  · right
    exact ⟨_, _, by rw [if_pos hemp], by rw [if_pos hemp], List.Perm.refl _⟩
  · rw [if_neg hemp, if_neg hemp, ← perm_any_eq hraw]
    by_cases hfail : (rowRaw r).any procOneFails
    · left
      rw [if_pos hfail, if_pos hfail]
      exact ⟨rfl, rfl⟩
    · right
      rw [if_neg hfail, if_neg hfail]
      exact ⟨_, _, rfl, rfl, hraw.map _⟩

theorem mapM_samplePreds_forall₂ (g : ℕ)
    {rs rs' : List (List RespItem)}
    (h : List.Forall₂ (fun a b : List RespItem => a.Perm b) rs rs') :
    (rs.mapM (samplePreds g) = .error .valueError ∧
      rs'.mapM (samplePreds g) = .error .valueError) ∨
    (∃ ps ps', rs.mapM (samplePreds g) = .ok ps ∧
      rs'.mapM (samplePreds g) = .ok ps' ∧
      List.Forall₂ (fun a b : List PyVal => a.Perm b) ps ps') := by
  induction h with
  | nil =>
    right
    exact ⟨[], [], by rw [List.mapM_nil]; rfl, by rw [List.mapM_nil]; rfl,
      List.Forall₂.nil⟩
  | @cons a b l₁ l₂ hab htail ih =>
    rw [List.mapM_cons, List.mapM_cons]
    rcases samplePreds_perm g hab with ⟨e1, e2⟩ | ⟨v, v', hv, hv', hvp⟩
    · left
      rw [e1, e2, error_bind, error_bind]
      exact ⟨rfl, rfl⟩
    · rw [hv, hv', ok_bind, ok_bind]
      rcases ih with ⟨e1, e2⟩ | ⟨ps, ps', hp1, hp2, hfa⟩
      · left
        rw [e1, e2, error_bind, error_bind]
        exact ⟨rfl, rfl⟩
      · right
        refine ⟨v :: ps, v' :: ps', ?_, ?_, List.Forall₂.cons hvp hfa⟩
        · rw [hp1, ok_bind]
          rfl
        · rw [hp2, ok_bind]
          rfl

theorem generate_concurrently_perm (nq : ℕ) {g g' : List GatherEntry}
    (h : g.Perm g') :
    List.Forall₂ (fun a b : List RespItem => a.Perm b)
      (generate_concurrently nq g) (generate_concurrently nq g') := by
  rw [List.forall₂_iff_get]
  refine ⟨by rw [generate_concurrently_length, generate_concurrently_length],
    fun i h1 h2 => ?_⟩
  have hi : i < nq := by
    rw [generate_concurrently_length] at h1
    exact h1
  have e1 : (generate_concurrently nq g).get ⟨i, h1⟩ =
      (generate_concurrently nq g).getD i [] :=
    (List.getD_eq_getElem _ _ h1).symm
  have e2 : (generate_concurrently nq g').get ⟨i, h2⟩ =
      (generate_concurrently nq g').getD i [] :=
    (List.getD_eq_getElem _ _ h2).symm
  rw [e1, e2, generate_concurrently_getD nq g i hi,
    generate_concurrently_getD nq g' i hi]
  exact h.filterMap _

theorem map_eq_of_forall₂ {α β γ : Type} {l : List α} {l' : List β}
    {f : α → γ} {g : β → γ}
    (h : List.Forall₂ (fun a b => f a = g b) l l') : l.map f = l'.map g := by
  induction h with
  | nil => rfl
  | cons hab htail ih => simp [ih, hab]

theorem forall₂_append {α β : Type} {R : α → β → Prop}
    {l₁ u₁ : List α} {l₂ u₂ : List β} (h : List.Forall₂ R l₁ l₂)
    (h' : List.Forall₂ R u₁ u₂) : List.Forall₂ R (l₁ ++ u₁) (l₂ ++ u₂) := by
  induction h with
  | nil => exact h'
  | cons hab htail ih => exact List.Forall₂.cons hab ih

theorem predictAux_perm (g : ℕ) (chs : List (List String)) :
    ∀ gss gss' : List (List GatherEntry),
    List.Forall₂ (fun a b : List GatherEntry => a.Perm b) gss gss' →
    (predictAux g chs gss = .error .valueError ∧
      predictAux g chs gss' = .error .valueError) ∨
    (∃ p p' b c k, predictAux g chs gss = .ok (p, b, c, k) ∧
      predictAux g chs gss' = .ok (p', b, c, k) ∧
      List.Forall₂ (fun a b : List PyVal => a.Perm b) p p') := by
  induction chs with
  | nil =>
    intro gss gss' h
    right
    exact ⟨[], [], [], 0, 0, rfl, rfl, List.Forall₂.nil⟩
  | cons ch chs ih =>
    intro gss gss' h
    have hhead : (gss.headD []).Perm (gss'.headD []) := by
      cases h with
      | nil => exact List.Perm.refl _
      | cons hab _ => exact hab
    have htail : List.Forall₂ (fun a b : List GatherEntry => a.Perm b)
        gss.tail gss'.tail := by
      cases h with
      | nil => exact List.Forall₂.nil
      | cons _ ht => exact ht
    have hrows := generate_concurrently_perm ch.length hhead
    have hb : (generate_concurrently ch.length (gss.headD [])).map
          (fun _ => (1 : ℕ)) =
        (generate_concurrently ch.length (gss'.headD [])).map
          (fun _ => (1 : ℕ)) :=
      map_eq_of_forall₂ (List.Forall₂.imp (fun _ _ _ => rfl) hrows)
    have hc : (generate_concurrently ch.length (gss.headD [])).map rowCost =
        (generate_concurrently ch.length (gss'.headD [])).map rowCost :=
      map_eq_of_forall₂ (List.Forall₂.imp (fun a b hp => by
        unfold rowCost
        exact (hp.map _).sum_eq) hrows)
    have ht : (generate_concurrently ch.length (gss.headD [])).map rowTokens =
        (generate_concurrently ch.length (gss'.headD [])).map rowTokens :=
      map_eq_of_forall₂ (List.Forall₂.imp (fun a b hp => by
        unfold rowTokens
        exact (hp.map _).sum_eq) hrows)
    simp only [predictAux]
    rcases mapM_samplePreds_forall₂ g hrows with ⟨e1, e2⟩ | ⟨ps, ps', h1, h2, hfa⟩
    · left
      rw [e1, e2, error_bind, error_bind]
      exact ⟨rfl, rfl⟩
    · rw [h1, h2, ok_bind, ok_bind]
      rcases ih gss.tail gss'.tail htail with ⟨e1, e2⟩ | ⟨p, p', b, c, k, hp1, hp2, hforall⟩
      · left
        rw [e1, e2, error_bind, error_bind]
        exact ⟨rfl, rfl⟩
      · right
        refine ⟨ps ++ p, ps' ++ p',
          ((generate_concurrently ch.length (gss'.headD [])).map
            (fun _ => (1 : ℕ))) ++ b,
          ((generate_concurrently ch.length (gss'.headD [])).map
            rowCost).sum + c,
          ((generate_concurrently ch.length (gss'.headD [])).map
            rowTokens).sum + k,
          ?_, ?_, forall₂_append hfa hforall⟩
        · rw [hp1, ok_bind, hb, hc, ht]
        · rw [hp2, ok_bind]

theorem all_length_eq_of_map_length_eq :
    ∀ {rs rs' : List (List PyVal)},
      rs.map List.length = rs'.map List.length → ∀ n : ℕ,
      (rs.all fun x => x.length = n) = (rs'.all fun x => x.length = n) := by
  intro rs
  induction rs with
  | nil =>
    intro rs' h n
    cases rs' with
    | nil => rfl
    | cons y ys => simp at h
  | cons x xs ih =>
    intro rs' h n
    cases rs' with
    | nil => simp at h
    | cons y ys =>
      simp only [List.map_cons, List.cons.injEq] at h
      obtain ⟨hx, hxs⟩ := h
      rw [List.all_cons, List.all_cons, hx, ih hxs n]

theorem allSameLength_congr {p p' : List (List PyVal)}
    (h : p.map List.length = p'.map List.length) :
    allSameLength p = allSameLength p' := by
  cases p with
  | nil =>
    cases p' with
    | nil => rfl
    | cons y ys => simp at h
  | cons r rs =>
    cases p' with
    | nil => simp at h
    | cons r' rs' =>
      simp only [List.map_cons, List.cons.injEq] at h
      obtain ⟨hr, hrs⟩ := h
      simp only [allSameLength]
      rw [hr, all_length_eq_of_map_length_eq hrs]

theorem predict_perm (g : ℕ) (qs : List String)
    {gss gss' : List (List GatherEntry)}
    (h : List.Forall₂ (fun a b : List GatherEntry => a.Perm b) gss gss') :
    predict g qs gss = predict g qs gss' := by
  unfold predict
  rcases predictAux_perm g (chunks5 qs) gss gss' h with
    ⟨e1, e2⟩ | ⟨p, p', b, c, k, h1, h2, hfa⟩
  · rw [e1, e2]
  · rw [h1, h2, ok_bind, ok_bind]
    have hlen : p.map List.length = p'.map List.length :=
      map_eq_of_forall₂ (List.Forall₂.imp (fun a b hp => hp.length_eq) hfa)
    have hmeans : p.map nanmean = p'.map nanmean :=
      map_eq_of_forall₂ (List.Forall₂.imp (fun a b hp => nanmean_perm hp) hfa)
    dsimp only
    rw [allSameLength_congr hlen, hmeans]

theorem mapM_ok_length {ε α β : Type} (f : α → Except ε β) :
    ∀ (l : List α) (r : List β), l.mapM f = .ok r → r.length = l.length := by
  intro l
  induction l with
  | nil =>
    intro r h
    rw [List.mapM_nil] at h
    cases h
    rfl
  | cons a l ih =>
    intro r h
    rw [List.mapM_cons] at h
    cases hf : f a with
    | error e => rw [hf, error_bind] at h; cases h
    | ok b =>
      rw [hf, ok_bind] at h
      cases hm : l.mapM f with
      | error e => rw [hm, error_bind] at h; cases h
      | ok bs =>
        rw [hm, ok_bind] at h
        cases h
        simp [ih bs hm]

theorem chunks5_sum_lengths {α : Type} (l : List α) :
    ((chunks5 l).map List.length).sum = l.length := by
  induction l using chunks5.induct with
  | case1 => rfl
  | case2 a b c d e rest ih =>
    simp only [chunks5, List.map_cons, List.sum_cons, ih]
    simp only [List.length_cons, List.length_nil]
    omega
  | case3 l h1 h2 =>
    simp [chunks5, h1, h2]

theorem predictAux_ok_length (g : ℕ) (chs : List (List String)) :
    ∀ (gss : List (List GatherEntry)) (p : List (List PyVal)) (b : List ℕ)
      (c : ℚ) (k : ℕ), predictAux g chs gss = .ok (p, b, c, k) →
      p.length = (chs.map List.length).sum := by
  induction chs with
  | nil =>
    intro gss p b c k h
    cases h
    rfl
  | cons ch chs ih =>
    intro gss p b c k h
    simp only [predictAux] at h
    cases hm : (generate_concurrently ch.length (gss.headD [])).mapM
        (samplePreds g) with
    | error e => rw [hm, error_bind] at h; cases h
    | ok ps =>
      rw [hm, ok_bind] at h
      cases haux : predictAux g chs gss.tail with
      | error e => rw [haux, error_bind] at h; cases h
      | ok rest =>
        rw [haux, ok_bind] at h
        obtain ⟨q, b2, c2, k2⟩ := rest
        cases h
        have hps : ps.length = ch.length := by
          rw [mapM_ok_length _ _ _ hm, generate_concurrently_length]
        have hq := ih gss.tail q b2 c2 k2 haux
        simp [hps, hq]

theorem predict_ok_length (g : ℕ) (qs : List String)
    (gss : List (List GatherEntry)) (probs : List PyVal)
    (rest : ℚ × ℚ × ℕ) (h : predict g qs gss = .ok (probs, rest)) :
    probs.length = qs.length := by
  unfold predict at h
  cases haux : predictAux g (chunks5 qs) gss with
  | error e => rw [haux, error_bind] at h; cases h
  | ok r =>
    rw [haux, ok_bind] at h
    obtain ⟨p, b, c, k⟩ := r
    dsimp only at h
    by_cases hb : b.length = 0
    · rw [if_pos hb] at h; cases h
    · rw [if_neg hb] at h
      by_cases hs : allSameLength p = false
      · rw [if_pos hs] at h; cases h
      · rw [if_neg hs] at h
        cases h
        rw [List.length_map]
        rw [predictAux_ok_length g (chunks5 qs) gss p b c k haux]
        exact chunks5_sum_lengths qs

theorem canonRow_skip (t : String)
    (outcome : String → String → Option (Option String × ℚ × ℕ))
    (ch : List String) :
    ∀ (m i : ℕ), i < m →
    ((List.enumFrom m ch).map fun p =>
      (outcome t p.2).map fun r => (p.1, r)).filterMap (rowSelect i) = [] := by
  induction ch with
  | nil => intro m i _; rfl
  | cons q ch ih =>
    intro m i him
    rw [List.enumFrom_cons, List.map_cons, List.filterMap_cons]
    have hsel : rowSelect i ((outcome t q).map fun r => (m, r)) = none := by
      cases outcome t q with
      | none => rfl
      | some r =>
        have hne : ¬ m = i := by omega
        simp [rowSelect, hne]
    rw [hsel, ih (m + 1) i (by omega)]

theorem canonRow_inner (t : String)
    (outcome : String → String → Option (Option String × ℚ × ℕ))
    (ch : List String) :
    ∀ (n i : ℕ), n ≤ i → i < n + ch.length →
    ((List.enumFrom n ch).map fun p =>
      (outcome t p.2).map fun r => (p.1, r)).filterMap (rowSelect i) =
      (outcome t (ch.getD (i - n) "")).toList := by
  induction ch with
  | nil =>
    intro n i h1 h2
    simp only [List.length_nil] at h2
    omega
  | cons q ch ih =>
    intro n i h1 h2
    rw [List.enumFrom_cons, List.map_cons, List.filterMap_cons]
    by_cases hni : n = i
    · subst hni
      rw [canonRow_skip t outcome ch (n + 1) n (by omega)]
      cases ho : outcome t q with
      | none => simp [rowSelect, ho]
      | some r => simp [rowSelect, ho]
    · have hsel : rowSelect i ((outcome t q).map fun r => (n, r)) = none := by
        cases outcome t q with
        | none => rfl
        | some r => simp [rowSelect, hni]
      rw [hsel, ih (n + 1) i (by omega) (by simpa [Nat.add_right_comm] using h2)]
      rw [show i - n = (i - (n + 1)) + 1 by omega, List.getD_cons_succ]

theorem canonGather_row (ts : List String) (ch : List String)
    (outcome : String → String → Option (Option String × ℚ × ℕ)) (i : ℕ)
    (hi : i < ch.length) :
    (canonGather ts ch outcome).filterMap (rowSelect i) =
      ts.filterMap fun t => outcome t (ch.getD i "") := by
  unfold canonGather
  induction ts with
  | nil => rfl
  | cons t ts ih =>
    rw [List.flatMap_cons, List.filterMap_append, ih, List.filterMap_cons]
    have h := canonRow_inner t outcome ch 0 i (by omega) (by omega)
    rw [Nat.sub_zero] at h
    rw [show ch.enum = List.enumFrom 0 ch from rfl, h]
    cases ho : outcome t (ch.getD i "") with
    | none => simp
    | some r => simp

/-- The concurrent engine regroups the canonical gathered results by
candidate index: row `i` holds exactly candidate `i`'s responses, one per
template that completed, in template order. -/
theorem generate_concurrently_canonical (ts qs : List String)
    (outcome : String → String → Option (Option String × ℚ × ℕ)) (i : ℕ)
    (hi : i < qs.length) :
    (generate_concurrently qs.length (canonGather ts qs outcome)).getD i [] =
      ts.filterMap fun t => outcome t (qs.getD i "") := by
  rw [generate_concurrently_getD _ _ i hi, canonGather_row ts qs outcome i hi]

unseal Rat.mul Rat.inv Rat.add in
/-- C2 (counterexample): a single candidate whose one response is
`"## . ##"` makes the prediction pipeline raise `ValueError` (through
`float(".")` in `process_response`), so no probability vector at all is
produced for this template list and candidate table. -/
theorem predict_crashes_on_unparseable :
    predict 10 ["q0"] (canonChunks ["t"] ["q0"]
      (fun _ _ => some (some "## . ##", 0, 0))) = .error .valueError := by
  decide

/-- C2 (amended): whenever `_predict` returns a probability vector (rather
than raising), that vector has exactly one entry per candidate, in the
candidate table's order: the result is unchanged under any permutation of
each chunk's gathered completion order, its length equals the number of
candidates, and the engine's regrouping assigns to index `i` exactly
candidate `i`'s own responses. -/
theorem predict_order_preservation (g : ℕ) (ts qs : List String)
    (outcome : String → String → Option (Option String × ℚ × ℕ))
    (gss : List (List GatherEntry))
    (hperm : List.Forall₂ (fun a b : List GatherEntry => a.Perm b) gss
      (canonChunks ts qs outcome)) :
    predict g qs gss = predict g qs (canonChunks ts qs outcome) ∧
    (∀ probs rest, predict g qs gss = .ok (probs, rest) →
      probs.length = qs.length) ∧
    (∀ i, i < qs.length →
      (generate_concurrently qs.length (canonGather ts qs outcome)).getD i []
        = ts.filterMap fun t => outcome t (qs.getD i "")) :=
  ⟨predict_perm g qs hperm,
    fun probs rest h => predict_ok_length g qs gss probs rest h,
    fun i hi => generate_concurrently_canonical ts qs outcome i hi⟩

/-- C2 (witness): two templates, two candidates, with the gathered results
delivered in reversed completion order: the pipeline's value is the
canonical one, and row 0 of the regrouping holds exactly candidate
`"q0"`'s responses. -/
theorem predict_order_preservation_witness :
    predict 3 ["q0", "q1"]
        [(canonGather ["ta", "tb"] ["q0", "q1"]
          (fun _ q => if q = "q0" then some (some "## 1 ##", 0, 0)
            else some (some "## 0 ##", 0, 0))).reverse] =
      predict 3 ["q0", "q1"]
        (canonChunks ["ta", "tb"] ["q0", "q1"]
          (fun _ q => if q = "q0" then some (some "## 1 ##", 0, 0)
            else some (some "## 0 ##", 0, 0))) ∧
    (generate_concurrently (["q0", "q1"] : List String).length
        (canonGather ["ta", "tb"] ["q0", "q1"]
          (fun _ q => if q = "q0" then some (some "## 1 ##", 0, 0)
            else some (some "## 0 ##", 0, 0)))).getD 0 [] =
      (["ta", "tb"] : List String).filterMap fun _ =>
        some ((some "## 1 ##" : Option String), (0 : ℚ), (0 : ℕ)) := by
  have h := predict_order_preservation 3 ["ta", "tb"] ["q0", "q1"]
    (fun _ q => if q = "q0" then some (some "## 1 ##", 0, 0)
      else some (some "## 0 ##", 0, 0))
    [(canonGather ["ta", "tb"] ["q0", "q1"]
      (fun _ q => if q = "q0" then some (some "## 1 ##", 0, 0)
        else some (some "## 0 ##", 0, 0))).reverse]
    (List.Forall₂.cons (List.reverse_perm _) List.Forall₂.nil)
  refine ⟨h.1, ?_⟩
  rw [h.2.2 0 (by decide)]
  rfl
